import Mathlib

/-!
Shallow embedding of the pdf-diff application core (src/app.py).

The repository's core is `highlight_differences` (page normalization via
PIL resize, grayscale conversion and absolute-difference thresholding via
OpenCV, overlay painting via PIL ImageDraw, alpha compositing), plus the
page-pairing driver `process_pdfs` and the vertical concatenation helper
`combine_images`.  Rasters are modelled as a width, a height and a pixel
function; machine `uint8` arithmetic never overflows the ranges used here,
so pixel channels are plain naturals.

Library calls are embedded with their exact integer semantics:
 - PIL `Image.resize` first returns the image unchanged when the requested
   size equals the current size, and otherwise its C layer rejects a zero
   target dimension before resampling; the resampling kernel itself
   (`Image.LANCZOS`) is an external parameter of the embedding.
 - `cv2.cvtColor(..., COLOR_RGB2GRAY)` is OpenCV's fixed-point luminance
   transform `(4899 r + 9617 g + 1868 b + 2^13) >> 14`, and rejects an
   empty input image.
 - `cv2.threshold(diff, 30, 255, THRESH_BINARY)` maps a value to 255 when
   it is strictly greater than 30, else to 0.
 - `ImageDraw.point` on an RGBA image (default draw mode) writes the fill
   value, alpha included, directly over the previous pixel value.
 - `Image.alpha_composite` is Pillow's integer source-over formula with
   7 extra precision bits and rounded division by 255.
-/

set_option maxHeartbeats 1000000

namespace PdfDiff

/-- An RGB pixel; channels are 8-bit values in `[0, 255]`. -/
structure RGB where
  r : Nat
  g : Nat
  b : Nat
  deriving DecidableEq, Repr

/-- An RGBA pixel; channels are 8-bit values in `[0, 255]`. -/
structure RGBA where
  r : Nat
  g : Nat
  b : Nat
  a : Nat
  deriving DecidableEq, Repr

/-- A raster image: dimensions plus a pixel lookup, addressed as
`pix x y` with `x` the column and `y` the row (PIL's convention). -/
structure Raster where
  width : Nat
  height : Nat
  pix : Nat → Nat → RGB

instance : Inhabited Raster := ⟨⟨0, 0, fun _ _ => ⟨0, 0, 0⟩⟩⟩

/-- PIL resampling filters; `highlight_differences` only ever passes
`Image.LANCZOS` (src/app.py lines 39-40). -/
inductive PILFilter
  | lanczos
  deriving DecidableEq, Repr

/-- Errors surfaced by the embedded library calls: `invalidInput` is
PIL resize's rejection of a zero target dimension ("height and width must
be > 0"), `emptyImage` is OpenCV's rejection of an empty input to
`cvtColor`. -/
inductive AppError
  | invalidInput
  | emptyImage
  deriving DecidableEq, Repr

/-- The type of an external resampling kernel: the embedding of
`PIL.Image.resize` delegates to it whenever actual resampling happens.
PIL guarantees the result has exactly the requested dimensions. -/
abbrev Resampler := Raster → Nat → Nat → PILFilter → Raster

/-- PIL `Image.resize(size, flt)`: returns the image unchanged (a copy)
when the requested size equals the current size; otherwise the C layer
rejects a zero target dimension with `ValueError`, and else delegates to
the resampling kernel. -/
def pilResize (resample : Resampler) (img : Raster) (w h : Nat)
    (flt : PILFilter) : Except AppError Raster :=
  if img.width = w ∧ img.height = h then .ok img
  else if w = 0 ∨ h = 0 then .error .invalidInput
  else .ok (resample img w h flt)

/-- Lines 37-40 of src/app.py: resize both pages to the componentwise
minimum of their sizes, with `Image.LANCZOS`. -/
def normalize (resample : Resampler) (base_image check_image : Raster) :
    Except AppError (Raster × Raster) :=
  let min_width := min base_image.width check_image.width
  let min_height := min base_image.height check_image.height
  match pilResize resample base_image min_width min_height .lanczos with
  | .error e => .error e
  | .ok b =>
    match pilResize resample check_image min_width min_height .lanczos with
    | .error e => .error e
    | .ok c => .ok (b, c)

/-- OpenCV `COLOR_RGB2GRAY` on `uint8`: fixed-point luminance
`(4899 r + 9617 g + 1868 b + 2^13) >> 14` (coefficients are
`0.299, 0.587, 0.114` scaled by `2^14`). -/
def rgb2gray (p : RGB) : Nat :=
  (4899 * p.r + 9617 * p.g + 1868 * p.b + 8192) >>> 14

/-- `cv2.absdiff` on `uint8` values. -/
def absdiff (a b : Nat) : Nat := if a ≤ b then b - a else a - b

/-- `cv2.threshold(v, thresh, maxval, cv2.THRESH_BINARY)` for one pixel:
`maxval` when `v > thresh`, else `0`. -/
def threshBinary (thresh maxval v : Nat) : Nat := if v > thresh then maxval else 0

/-- Lines 43-48 of src/app.py at one pixel: the thresholded absolute
grayscale difference, indexed `[y, x]` as in numpy. -/
def diffMaskVal (base_r check_r : Raster) (y x : Nat) : Nat :=
  threshBinary 30 255 (absdiff (rgb2gray (base_r.pix x y)) (rgb2gray (check_r.pix x y)))

/-- The `diff_mask[y, x] > 0` test of line 59 of src/app.py. -/
def diffMask (base_r check_r : Raster) (y x : Nat) : Bool :=
  decide (0 < diffMaskVal base_r check_r y x)

/-- The primary highlight ink of line 60: orange at alpha 120. -/
def primaryColor : RGBA := ⟨255, 165, 0, 120⟩

/-- The neighbor (halo) ink of line 64: orange at alpha 60. -/
def secondaryColor : RGBA := ⟨255, 165, 0, 60⟩

/-- The fully transparent pixel the overlay is initialized with (line 52). -/
def transparentColor : RGBA := ⟨0, 0, 0, 0⟩

/-- `draw.point((px, py), fill := c)` on an RGBA image with the default
draw mode: the ink, alpha included, replaces the stored pixel. -/
def setPix (ov : Nat → Nat → RGBA) (px py : Nat) (c : RGBA) : Nat → Nat → RGBA :=
  fun x y => if x = px ∧ y = py then c else ov x y

/-- The neighbor offset list of line 61 of src/app.py. -/
def neighborOffsets : List (Int × Int) := [(-1, 0), (1, 0), (0, -1), (0, 1)]

/-- The body of the nested pixel loop (lines 59-64): when the mask is set
at `(y, x)`, paint that point with the primary ink, then paint each
in-bounds 4-neighbor with the secondary ink. -/
def drawStep (mask : Nat → Nat → Bool) (w h : Nat)
    (ov : Nat → Nat → RGBA) (y x : Nat) : Nat → Nat → RGBA :=
  if mask y x = true then
    neighborOffsets.foldl (fun o d =>
      if 0 ≤ (x : Int) + d.1 ∧ (x : Int) + d.1 < (w : Int) ∧
          0 ≤ (y : Int) + d.2 ∧ (y : Int) + d.2 < (h : Int) then
        setPix o ((x : Int) + d.1).toNat ((y : Int) + d.2).toNat secondaryColor
      else o)
      (setPix ov x y primaryColor)
  else ov

/-- Lines 56-64 of src/app.py: the full overlay pass, scanning rows
outermost (`y`) and columns innermost (`x`) over a transparent overlay. -/
def drawOverlay (mask : Nat → Nat → Bool) (w h : Nat) : Nat → Nat → RGBA :=
  (List.range h).foldl
    (fun ov y => (List.range w).foldl (fun ov x => drawStep mask w h ov y x) ov)
    (fun _ _ => transparentColor)

/-- Pillow's rounded division by 255: `SHIFTFORDIV255(a) = ((a >> 8) + a) >> 8`. -/
def shiftForDiv255 (a : Nat) : Nat := ((a >>> 8) + a) >>> 8

/-- Pillow `Image.alpha_composite` at one pixel (src over dst), the exact
integer computation of libImaging/AlphaComposite.c with
`PRECISION_BITS = 7`: a fully transparent source leaves the destination
pixel unchanged, otherwise the coefficients are computed in fixed point
with rounded division by 255. -/
def compositePixel (dst src : RGBA) : RGBA :=
  if src.a = 0 then dst
  else
    let blend := dst.a * (255 - src.a)
    let outa255 := src.a * 255 + blend
    let coef1 := src.a * 255 * 255 * 128 / outa255
    let coef2 := 255 * 128 - coef1
    { r := shiftForDiv255 (src.r * coef1 + dst.r * coef2 + 128 * 128) >>> 7
      g := shiftForDiv255 (src.g * coef1 + dst.g * coef2 + 128 * 128) >>> 7
      b := shiftForDiv255 (src.b * coef1 + dst.b * coef2 + 128 * 128) >>> 7
      a := shiftForDiv255 (outa255 + 128) }

/-- `Image.convert('RGBA')` on an RGB pixel: alpha 255. -/
def toRGBA (p : RGB) : RGBA := ⟨p.r, p.g, p.b, 255⟩

/-- `Image.convert('RGB')` on an RGBA pixel: the alpha channel is dropped. -/
def rgbOf (p : RGBA) : RGB := ⟨p.r, p.g, p.b⟩

/-- The opaque white background of line 67 of src/app.py. -/
def whiteBG : RGBA := ⟨255, 255, 255, 255⟩

/-- Lines 43-72 of src/app.py, after normalization (both inputs share the
base's dimensions there): compute the difference mask, paint the overlay,
then composite white ← base ← overlay and convert to RGB. -/
def highlightCore (base_r check_r : Raster) : Raster :=
  let w := base_r.width
  let h := base_r.height
  let mask := diffMask base_r check_r
  let overlay := drawOverlay mask w h
  { width := w, height := h
    pix := fun x y =>
      rgbOf (compositePixel (compositePixel whiteBG (toRGBA (base_r.pix x y))) (overlay x y)) }

/-- `highlight_differences` (lines 34-72 of src/app.py): normalize the two
pages, then run the core.  `cv2.cvtColor` rejects an empty image, so a
zero-area normalized pair surfaces as `emptyImage`. -/
def highlight_differences (resample : Resampler) (base_image check_image : Raster) :
    Except AppError Raster :=
  match normalize resample base_image check_image with
  | .error e => .error e
  | .ok (b, c) =>
    if b.width = 0 ∨ b.height = 0 then .error .emptyImage
    else .ok (highlightCore b c)

/-- Lines 81-96 of src/app.py: pair pages by index, processing exactly
`min` of the two page counts; a failing page aborts the run (a Python
exception propagates out of the loop). -/
def process_pdfs (resample : Resampler) (base_images check_images : List Raster) :
    Except AppError (List Raster) :=
  (List.range (min base_images.length check_images.length)).mapM
    (fun i => highlight_differences resample (base_images.getD i default)
      (check_images.getD i default))

/-- The white canvas pixel of `combine_images` (line 22). -/
def whiteRGB : RGB := ⟨255, 255, 255⟩

/-- PIL `Image.paste(src, (ox, oy))` with RGB images: a rectangular copy,
no blending. -/
def pasteAt (dst src : Raster) (ox oy : Nat) : Raster :=
  { width := dst.width, height := dst.height
    pix := fun x y =>
      if ox ≤ x ∧ x < ox + src.width ∧ oy ≤ y ∧ y < oy + src.height then
        src.pix (x - ox) (y - oy)
      else dst.pix x y }

/-- `max(widths)` of line 18 (as a fold; equal to Python's `max` on a
non-empty list). -/
def maxWidth (images : List Raster) : Nat := images.foldl (fun m i => max m i.width) 0

/-- `sum(heights)` of line 19. -/
def totalHeight (images : List Raster) : Nat := images.foldl (fun s i => s + i.height) 0

/-- The pasting loop of lines 25-30: each image is pasted horizontally
centered at the running vertical offset, which then advances by its height. -/
def combineLoop (maxW : Nat) : List Raster → Raster → Nat → Raster
  | [], acc, _ => acc
  | img :: rest, acc, yOff =>
    combineLoop maxW rest (pasteAt acc img ((maxW - img.width) / 2) yOff) (yOff + img.height)

/-- `combine_images` (lines 12-32 of src/app.py): stack the images
top-to-bottom on a white canvas of the maximal width and summed height. -/
def combine_images (images : List Raster) : Raster :=
  combineLoop (maxWidth images) images
    ⟨maxWidth images, totalHeight images, fun _ _ => whiteRGB⟩ 0

/-- Vertical offset of the `i`-th image inside `combine_images`. -/
def yOffsetAt (images : List Raster) (i : Nat) : Nat :=
  totalHeight (images.take i)

/-! ### Analysis-side definitions (used to state and prove properties) -/

/-- The in-bounds neighbor positions painted by one mask pixel, as `(X, Y)`
pairs, in the write order of line 61 (left, right, up, down); the guard and
position expressions are exactly those of `drawStep`, restricted to a list
prefix for induction. -/
def nbInbAux (w h x y : Nat) (l : List (Int × Int)) : List (Nat × Nat) :=
  l.filterMap (fun d =>
    if 0 ≤ (x : Int) + d.1 ∧ (x : Int) + d.1 < (w : Int) ∧
        0 ≤ (y : Int) + d.2 ∧ (y : Int) + d.2 < (h : Int) then
      some (((x : Int) + d.1).toNat, ((y : Int) + d.2).toNat)
    else none)

/-- The in-bounds 4-neighbors of `(x, y)`, as painted by `drawStep`. -/
def nbInb (w h x y : Nat) : List (Nat × Nat) := nbInbAux w h x y neighborOffsets

/-- One row of the scan, as `(y, x)` pairs in increasing `x` order. -/
def rowList (y w : Nat) : List (Nat × Nat) := (List.range w).map (fun x => (y, x))

/-- The full scan order of the nested loop of lines 57-58: all `(y, x)`
pairs in lexicographic order, rows outermost. -/
def scanList (h w : Nat) : List (Nat × Nat) := (List.range h).flatMap (fun y => rowList y w)

/-- Lexicographic order on `(y, x)` pairs: the order in which the nested
loop visits pixels. -/
def lexLt (p q : Nat × Nat) : Prop := p.1 < q.1 ∨ (p.1 = q.1 ∧ p.2 < q.2)

/-- The scan step at `q = (y, x)` writes the overlay pixel `(X, Y)`:
`q` must be mask-true, and `(X, Y)` is either an in-bounds neighbor of `q`
or `q` itself. -/
def writesAt (mask : Nat → Nat → Bool) (w h : Nat) (q : Nat × Nat) (X Y : Nat) : Prop :=
  mask q.1 q.2 = true ∧ ((X, Y) ∈ nbInb w h q.2 q.1 ∨ (X = q.2 ∧ Y = q.1))

/-- The value the scan step at `q` leaves at an overlay pixel it writes:
the secondary ink on neighbors (painted after the primary ink, hence
winning when both apply), the primary ink on `q` itself. -/
def writeVal (w h : Nat) (q : Nat × Nat) (X Y : Nat) : RGBA :=
  if (X, Y) ∈ nbInb w h q.2 q.1 then secondaryColor else primaryColor

/-- `(qy, qx)` equals `(Y, X)` or is one of its 4-connected neighbors. -/
def adjOrEq (qy qx Y X : Nat) : Prop :=
  (qy = Y ∧ qx = X) ∨ (qy = Y ∧ (qx + 1 = X ∨ X + 1 = qx)) ∨
    (qx = X ∧ (qy + 1 = Y ∨ Y + 1 = qy))

instance (qy qx Y X : Nat) : Decidable (adjOrEq qy qx Y X) := by
  unfold adjOrEq
  infer_instance

/-- The pure value produced by PIL resize when it succeeds: the image
itself on a size match, the kernel's output otherwise. -/
def resizeFn (resample : Resampler) (img : Raster) (w h : Nat) (flt : PILFilter) : Raster :=
  if img.width = w ∧ img.height = h then img else resample img w h flt

/-- The normalized base page (the successful value of `normalize`). -/
def normBase (resample : Resampler) (b c : Raster) : Raster :=
  resizeFn resample b (min b.width c.width) (min b.height c.height) .lanczos

/-- The normalized check page (the successful value of `normalize`). -/
def normCheck (resample : Resampler) (b c : Raster) : Raster :=
  resizeFn resample c (min b.width c.width) (min b.height c.height) .lanczos

/-- A concrete resampling kernel (nearest neighbor), used to instantiate
the external-kernel parameter on concrete inputs. -/
def sampleKernel : Resampler :=
  fun img w h _ => ⟨w, h, fun x y => img.pix (x * img.width / w) (y * img.height / h)⟩

/-- A solid-color raster. -/
def solidRaster (w h : Nat) (c : RGB) : Raster := ⟨w, h, fun _ _ => c⟩

/-- The everywhere-true mask. -/
def fullMask : Nat → Nat → Bool := fun _ _ => true

/-- Which image of the pasting loop covers an output pixel, scanning the
remaining images with the running offset; later pastes win, so the tail is
consulted first. -/
def findCover (maxW : Nat) : List Raster → Nat → Nat → Nat → Option (Raster × Nat × Nat)
  | [], _, _, _ => none
  | img :: rest, yOff, X, Y =>
    match findCover maxW rest (yOff + img.height) X Y with
    | some r => some r
    | none =>
      if (maxW - img.width) / 2 ≤ X ∧ X < (maxW - img.width) / 2 + img.width ∧
          yOff ≤ Y ∧ Y < yOff + img.height then
        some (img, (maxW - img.width) / 2, yOff)
      else none

/-- The rectangular region the `i`-th image occupies in the combined
output (horizontal centering offset, band of its height at its cumulative
vertical offset). -/
def coverRegion (maxW : Nat) (images : List Raster) (yOff i X Y : Nat) : Prop :=
  (maxW - (images.getD i default).width) / 2 ≤ X ∧
  X < (maxW - (images.getD i default).width) / 2 + (images.getD i default).width ∧
  yOff + totalHeight (images.take i) ≤ Y ∧
  Y < yOff + totalHeight (images.take i) + (images.getD i default).height

/-! ### Overlay machinery -/

theorem setPix_apply (ov : Nat → Nat → RGBA) (px py : Nat) (c : RGBA) (X Y : Nat) :
    setPix ov px py c X Y = if X = px ∧ Y = py then c else ov X Y := rfl

theorem foldl_guard_setPix (w h x y : Nat) (c : RGBA) :
    ∀ (l : List (Int × Int)) (base : Nat → Nat → RGBA) (X Y : Nat),
    (l.foldl (fun o d =>
      if 0 ≤ (x : Int) + d.1 ∧ (x : Int) + d.1 < (w : Int) ∧
          0 ≤ (y : Int) + d.2 ∧ (y : Int) + d.2 < (h : Int) then
        setPix o ((x : Int) + d.1).toNat ((y : Int) + d.2).toNat c
      else o) base) X Y =
      if (X, Y) ∈ nbInbAux w h x y l then c else base X Y := by
  intro l
  induction l with
  | nil => intro base X Y; simp [nbInbAux]
  | cons d l ih =>
    intro base X Y
    by_cases hg : 0 ≤ (x : Int) + d.1 ∧ (x : Int) + d.1 < (w : Int) ∧
        0 ≤ (y : Int) + d.2 ∧ (y : Int) + d.2 < (h : Int)
    · rw [List.foldl_cons, if_pos hg, ih]
      have hconsm : nbInbAux w h x y (d :: l) =
          (((x : Int) + d.1).toNat, ((y : Int) + d.2).toNat) :: nbInbAux w h x y l := by
        simp [nbInbAux, List.filterMap_cons, if_pos hg]
      rw [hconsm]
      by_cases hmem : (X, Y) ∈ nbInbAux w h x y l
      · rw [if_pos hmem, if_pos (List.mem_cons_of_mem _ hmem)]
      · rw [if_neg hmem, setPix_apply]
        by_cases hxy : X = ((x : Int) + d.1).toNat ∧ Y = ((y : Int) + d.2).toNat
        · rw [if_pos hxy, if_pos]
          exact List.mem_cons.mpr (Or.inl (by rw [hxy.1, hxy.2]))
        · rw [if_neg hxy, if_neg]
          intro hc
          rcases List.mem_cons.mp hc with hc | hc
          · exact hxy ⟨congrArg Prod.fst hc, congrArg Prod.snd hc⟩
          · exact hmem hc
    · rw [List.foldl_cons, if_neg hg, ih]
      have : nbInbAux w h x y (d :: l) = nbInbAux w h x y l := by
        simp [nbInbAux, List.filterMap_cons, if_neg hg]
      rw [this]

theorem drawStep_apply (mask : Nat → Nat → Bool) (w h : Nat) (ov : Nat → Nat → RGBA)
    (y x X Y : Nat) :
    drawStep mask w h ov y x X Y =
      if mask y x = true then
        (if (X, Y) ∈ nbInb w h x y then secondaryColor
         else if X = x ∧ Y = y then primaryColor
         else ov X Y)
      else ov X Y := by
  by_cases hm : mask y x = true
  · rw [if_pos hm]
    unfold drawStep
    rw [if_pos hm, foldl_guard_setPix]
    unfold nbInb
    by_cases hmem : (X, Y) ∈ nbInbAux w h x y neighborOffsets
    · rw [if_pos hmem, if_pos hmem]
    · rw [if_neg hmem, if_neg hmem, setPix_apply]
  · rw [if_neg hm]
    unfold drawStep
    rw [if_neg hm]

theorem mem_nbInb (w h x y X Y : Nat) :
    (X, Y) ∈ nbInb w h x y ↔
      X < w ∧ Y < h ∧
        ((Y = y ∧ (X + 1 = x ∨ X = x + 1)) ∨ (X = x ∧ (Y + 1 = y ∨ Y = y + 1))) := by
  unfold nbInb nbInbAux neighborOffsets
  rw [List.mem_filterMap]
  constructor
  · rintro ⟨d, hd, hfd⟩
    simp only [List.mem_cons, List.not_mem_nil, or_false] at hd
    rcases hd with rfl | rfl | rfl | rfl <;>
      · split_ifs at hfd with hguard
        simp only [Option.some.injEq, Prod.mk.injEq] at hfd
        obtain ⟨h1, h2⟩ := hfd
        simp only at hguard h1 h2
        omega
  · rintro ⟨hXw, hYh, hcase⟩
    rcases hcase with ⟨hYy, hXx | hXx⟩ | ⟨hXx, hYy | hYy⟩
    · refine ⟨(-1, 0), by simp, ?_⟩
      rw [if_pos (by simp only; omega)]
      simp only [Option.some.injEq, Prod.mk.injEq]
      omega
    · refine ⟨(1, 0), by simp, ?_⟩
      rw [if_pos (by simp only; omega)]
      simp only [Option.some.injEq, Prod.mk.injEq]
      omega
    · refine ⟨(0, -1), by simp, ?_⟩
      rw [if_pos (by simp only; omega)]
      simp only [Option.some.injEq, Prod.mk.injEq]
      omega
    · refine ⟨(0, 1), by simp, ?_⟩
      rw [if_pos (by simp only; omega)]
      simp only [Option.some.injEq, Prod.mk.injEq]
      omega

theorem center_not_mem_nbInb (w h x y : Nat) : (x, y) ∉ nbInb w h x y := by
  intro hmem
  have := (mem_nbInb w h x y x y).mp hmem
  omega

theorem drawStep_writes (mask : Nat → Nat → Bool) (w h : Nat) (ov : Nat → Nat → RGBA)
    (q : Nat × Nat) (X Y : Nat) (hW : writesAt mask w h q X Y) :
    drawStep mask w h ov q.1 q.2 X Y = writeVal w h q X Y := by
  obtain ⟨hm, hpos⟩ := hW
  rw [drawStep_apply, if_pos hm]
  unfold writeVal
  by_cases hmem : (X, Y) ∈ nbInb w h q.2 q.1
  · rw [if_pos hmem, if_pos hmem]
  · rw [if_neg hmem, if_neg hmem]
    rcases hpos with hpos | hpos
    · exact absurd hpos hmem
    · rw [if_pos hpos]

theorem drawStep_skips (mask : Nat → Nat → Bool) (w h : Nat) (ov : Nat → Nat → RGBA)
    (q : Nat × Nat) (X Y : Nat) (hW : ¬ writesAt mask w h q X Y) :
    drawStep mask w h ov q.1 q.2 X Y = ov X Y := by
  rw [drawStep_apply]
  by_cases hm : mask q.1 q.2 = true
  · rw [if_pos hm]
    have hnot : ¬((X, Y) ∈ nbInb w h q.2 q.1 ∨ (X = q.2 ∧ Y = q.1)) := by
      intro hc
      exact hW ⟨hm, hc⟩
    rw [if_neg (fun hc => hnot (Or.inl hc)), if_neg (fun hc => hnot (Or.inr hc))]
  · rw [if_neg hm]

theorem foldl_no_writes (mask : Nat → Nat → Bool) (w h X Y : Nat) :
    ∀ (l : List (Nat × Nat)) (init : Nat → Nat → RGBA),
    (∀ q ∈ l, ¬ writesAt mask w h q X Y) →
    (l.foldl (fun ov q => drawStep mask w h ov q.1 q.2) init) X Y = init X Y := by
  intro l
  induction l with
  | nil => intro init _; rfl
  | cons q l ih =>
    intro init hno
    rw [List.foldl_cons, ih _ (fun r hr => hno r (List.mem_cons_of_mem _ hr)),
      drawStep_skips _ _ _ _ _ _ _ (hno q (List.mem_cons_self _ _))]

theorem foldl_last_write (mask : Nat → Nat → Bool) (w h X Y : Nat)
    (l1 l2 : List (Nat × Nat)) (q : Nat × Nat) (init : Nat → Nat → RGBA)
    (hq : writesAt mask w h q X Y) (h2 : ∀ r ∈ l2, ¬ writesAt mask w h r X Y) :
    ((l1 ++ q :: l2).foldl (fun ov q => drawStep mask w h ov q.1 q.2) init) X Y
      = writeVal w h q X Y := by
  rw [List.foldl_append, List.foldl_cons, foldl_no_writes mask w h X Y l2 _ h2,
    drawStep_writes _ _ _ _ _ _ _ hq]

theorem foldl_flatMap_eq {α β γ : Type} (f : α → List β) (g : γ → β → γ) :
    ∀ (l : List α) (init : γ),
    (l.flatMap f).foldl g init = l.foldl (fun acc a => (f a).foldl g acc) init := by
  intro l
  induction l with
  | nil => intro init; rfl
  | cons a l ih =>
    intro init
    rw [List.flatMap_cons, List.foldl_append, ih, List.foldl_cons]

theorem drawOverlay_eq_foldl (mask : Nat → Nat → Bool) (w h : Nat) :
    drawOverlay mask w h =
      (scanList h w).foldl (fun ov q => drawStep mask w h ov q.1 q.2)
        (fun _ _ => transparentColor) := by
  unfold drawOverlay scanList
  rw [foldl_flatMap_eq]
  congr 1
  funext ov y
  unfold rowList
  rw [List.foldl_map]

theorem mem_scanList (h w : Nat) (q : Nat × Nat) : q ∈ scanList h w ↔ q.1 < h ∧ q.2 < w := by
  unfold scanList rowList
  rw [List.mem_flatMap]
  constructor
  · rintro ⟨y, hy, hq⟩
    rw [List.mem_map] at hq
    obtain ⟨x, hx, rfl⟩ := hq
    exact ⟨List.mem_range.mp hy, List.mem_range.mp hx⟩
  · rintro ⟨h1, h2⟩
    refine ⟨q.1, List.mem_range.mpr h1, List.mem_map.mpr ⟨q.2, List.mem_range.mpr h2, ?_⟩⟩
    exact Prod.mk.eta

theorem scanList_pairwise (h w : Nat) : (scanList h w).Pairwise lexLt := by
  unfold scanList
  rw [List.pairwise_flatMap]
  constructor
  · intro y _
    unfold rowList
    rw [List.pairwise_map]
    exact (List.pairwise_lt_range w).imp (fun hlt => Or.inr ⟨rfl, hlt⟩)
  · refine (List.pairwise_lt_range h).imp ?_
    intro y1 y2 hlt p hp q hq
    unfold rowList at hp hq
    rw [List.mem_map] at hp hq
    obtain ⟨x1, _, rfl⟩ := hp
    obtain ⟨x2, _, rfl⟩ := hq
    exact Or.inl hlt

theorem scanList_split (h w : Nat) (q : Nat × Nat) (hq : q ∈ scanList h w) :
    ∃ l1 l2, scanList h w = l1 ++ q :: l2 ∧ ∀ r ∈ l2, lexLt q r := by
  obtain ⟨l1, l2, heq⟩ := List.append_of_mem hq
  refine ⟨l1, l2, heq, ?_⟩
  have hp := scanList_pairwise h w
  rw [heq, List.pairwise_append] at hp
  exact (List.pairwise_cons.mp hp.2.1).1

theorem drawOverlay_no_writes (mask : Nat → Nat → Bool) (w h X Y : Nat)
    (hno : ∀ q : Nat × Nat, q.1 < h → q.2 < w → ¬ writesAt mask w h q X Y) :
    drawOverlay mask w h X Y = transparentColor := by
  rw [drawOverlay_eq_foldl]
  exact foldl_no_writes mask w h X Y (scanList h w) _ (fun q hq =>
    hno q ((mem_scanList h w q).mp hq).1 ((mem_scanList h w q).mp hq).2)

theorem drawOverlay_last (mask : Nat → Nat → Bool) (w h X Y : Nat) (q : Nat × Nat)
    (hq : q ∈ scanList h w) (hW : writesAt mask w h q X Y)
    (hlast : ∀ r : Nat × Nat, r.1 < h → r.2 < w → lexLt q r → ¬ writesAt mask w h r X Y) :
    drawOverlay mask w h X Y = writeVal w h q X Y := by
  obtain ⟨l1, l2, heq, hgt⟩ := scanList_split h w q hq
  rw [drawOverlay_eq_foldl, heq]
  refine foldl_last_write mask w h X Y l1 l2 q _ hW ?_
  intro r hr
  have hrs : r ∈ scanList h w := by
    rw [heq]
    exact List.mem_append.mpr (Or.inr (List.mem_cons_of_mem _ hr))
  exact hlast r ((mem_scanList h w r).mp hrs).1 ((mem_scanList h w r).mp hrs).2 (hgt r hr)

theorem foldl_draw_range (mask : Nat → Nat → Bool) (w h X Y : Nat) :
    ∀ (l : List (Nat × Nat)) (init : Nat → Nat → RGBA),
    (init X Y = transparentColor ∨ init X Y = primaryColor ∨ init X Y = secondaryColor) →
    ((l.foldl (fun ov q => drawStep mask w h ov q.1 q.2) init) X Y = transparentColor ∨
      (l.foldl (fun ov q => drawStep mask w h ov q.1 q.2) init) X Y = primaryColor ∨
      (l.foldl (fun ov q => drawStep mask w h ov q.1 q.2) init) X Y = secondaryColor) := by
  intro l
  induction l with
  | nil => intro init hinit; exact hinit
  | cons q l ih =>
    intro init hinit
    rw [List.foldl_cons]
    refine ih _ ?_
    rw [drawStep_apply]
    by_cases hm : mask q.1 q.2 = true
    · rw [if_pos hm]
      by_cases hmem : (X, Y) ∈ nbInb w h q.2 q.1
      · rw [if_pos hmem]
        exact Or.inr (Or.inr rfl)
      · rw [if_neg hmem]
        by_cases hc : X = q.2 ∧ Y = q.1
        · rw [if_pos hc]
          exact Or.inr (Or.inl rfl)
        · rw [if_neg hc]
          exact hinit
    · rw [if_neg hm]
      exact hinit

theorem drawOverlay_range (mask : Nat → Nat → Bool) (w h X Y : Nat) :
    drawOverlay mask w h X Y = transparentColor ∨
      drawOverlay mask w h X Y = primaryColor ∨
      drawOverlay mask w h X Y = secondaryColor := by
  rw [drawOverlay_eq_foldl]
  exact foldl_draw_range mask w h X Y (scanList h w) _ (Or.inl rfl)

theorem drawOverlay_single (mask : Nat → Nat → Bool) (w h px py : Nat)
    (hpx : px < w) (hpy : py < h) (hm : mask py px = true)
    (huniq : ∀ y x, y < h → x < w → mask y x = true → y = py ∧ x = px) :
    drawOverlay mask w h px py = primaryColor ∧
    (∀ X Y, (X, Y) ∈ nbInb w h px py → drawOverlay mask w h X Y = secondaryColor) ∧
    (∀ X Y, ¬(Y = py ∧ X = px) → (X, Y) ∉ nbInb w h px py →
      drawOverlay mask w h X Y = transparentColor) := by
  have hwriter : ∀ (r : Nat × Nat) (X Y : Nat), r.1 < h → r.2 < w →
      writesAt mask w h r X Y → r = (py, px) := by
    intro r X Y h1 h2 hW
    obtain ⟨e1, e2⟩ := huniq r.1 r.2 h1 h2 hW.1
    rcases r with ⟨ry, rx⟩
    simp only at e1 e2
    rw [e1, e2]
  have hscan : ((py, px) : Nat × Nat) ∈ scanList h w := (mem_scanList h w (py, px)).mpr ⟨hpy, hpx⟩
  have hlast : ∀ (X Y : Nat) (r : Nat × Nat), r.1 < h → r.2 < w → lexLt (py, px) r →
      ¬ writesAt mask w h r X Y := by
    intro X Y r h1 h2 hlex hW
    have hr := hwriter r X Y h1 h2 hW
    rw [hr] at hlex
    unfold lexLt at hlex
    omega
  refine ⟨?_, ?_, ?_⟩
  · have hres2 := drawOverlay_last mask w h px py (py, px) hscan
      ⟨hm, Or.inr ⟨rfl, rfl⟩⟩ (hlast px py)
    rw [hres2]
    unfold writeVal
    rw [if_neg (center_not_mem_nbInb w h px py)]
  · intro X Y hmem
    have hres2 := drawOverlay_last mask w h X Y (py, px) hscan
      ⟨hm, Or.inl hmem⟩ (hlast X Y)
    rw [hres2]
    unfold writeVal
    rw [if_pos hmem]
  · intro X Y hc hnb
    refine drawOverlay_no_writes mask w h X Y ?_
    intro q h1 h2 hW
    have hr := hwriter q X Y h1 h2 hW
    rw [hr] at hW
    rcases hW.2 with hmem | hcen
    · exact hnb hmem
    · exact hc ⟨hcen.2, hcen.1⟩

/-! ### Compositing and thresholding lemmas -/

theorem compositePixel_transparent (d : RGBA) : compositePixel d transparentColor = d := rfl

theorem compositePixel_alpha255 (d s : RGBA) (hd : d.a = 255)
    (hs : s.a = 0 ∨ s.a = 60 ∨ s.a = 120 ∨ s.a = 255) :
    (compositePixel d s).a = 255 := by
  rcases hs with hs | hs | hs | hs
  · unfold compositePixel
    rw [if_pos hs]
    exact hd
  · unfold compositePixel
    rw [hs, hd, if_neg (by decide)]
    show shiftForDiv255 (60 * 255 + 255 * (255 - 60) + 128) = 255
    decide
  · unfold compositePixel
    rw [hs, hd, if_neg (by decide)]
    show shiftForDiv255 (120 * 255 + 255 * (255 - 120) + 128) = 255
    decide
  · unfold compositePixel
    rw [hs, hd, if_neg (by decide)]
    show shiftForDiv255 (255 * 255 + 255 * (255 - 255) + 128) = 255
    decide

theorem diffMask_iff (b c : Raster) (y x : Nat) :
    diffMask b c y x = true ↔
      30 < absdiff (rgb2gray (b.pix x y)) (rgb2gray (c.pix x y)) := by
  unfold diffMask diffMaskVal threshBinary
  by_cases hgt : 30 < absdiff (rgb2gray (b.pix x y)) (rgb2gray (c.pix x y))
  · rw [if_pos hgt]
    simp [hgt]
  · rw [if_neg hgt]
    simp [hgt]

/-! ### Resize and normalization lemmas -/

theorem resizeFn_size (resample : Resampler)
    (hres : ∀ img w2 h2 flt, (resample img w2 h2 flt).width = w2 ∧
      (resample img w2 h2 flt).height = h2)
    (img : Raster) (w h : Nat) (flt : PILFilter) :
    (resizeFn resample img w h flt).width = w ∧ (resizeFn resample img w h flt).height = h := by
  unfold resizeFn
  by_cases hsz : img.width = w ∧ img.height = h
  · rw [if_pos hsz]
    exact hsz
  · rw [if_neg hsz]
    exact hres img w h flt

theorem pilResize_ok (resample : Resampler) (img : Raster) (w h : Nat) (flt : PILFilter)
    (hw : 0 < w) (hh : 0 < h) :
    pilResize resample img w h flt = .ok (resizeFn resample img w h flt) := by
  unfold pilResize resizeFn
  by_cases hsz : img.width = w ∧ img.height = h
  · rw [if_pos hsz, if_pos hsz]
  · rw [if_neg hsz, if_neg hsz, if_neg (by omega)]

theorem normalize_ok (resample : Resampler) (b c : Raster)
    (hbw : 0 < b.width) (hbh : 0 < b.height) (hcw : 0 < c.width) (hch : 0 < c.height) :
    normalize resample b c = .ok (normBase resample b c, normCheck resample b c) := by
  have h1 : pilResize resample b (min b.width c.width) (min b.height c.height) .lanczos
      = .ok (normBase resample b c) := by
    unfold normBase
    exact pilResize_ok resample b _ _ _ (by omega) (by omega)
  have h2 : pilResize resample c (min b.width c.width) (min b.height c.height) .lanczos
      = .ok (normCheck resample b c) := by
    unfold normCheck
    exact pilResize_ok resample c _ _ _ (by omega) (by omega)
  simp only [normalize]
  rw [h1, h2]

theorem normBase_self (resample : Resampler) (A : Raster) :
    normBase resample A A = A ∧ normCheck resample A A = A := by
  unfold normBase normCheck resizeFn
  rw [Nat.min_self, Nat.min_self, if_pos ⟨rfl, rfl⟩]
  exact ⟨rfl, rfl⟩

theorem highlight_ok (resample : Resampler)
    (hres : ∀ img w2 h2 flt, (resample img w2 h2 flt).width = w2 ∧
      (resample img w2 h2 flt).height = h2)
    (b c : Raster)
    (hbw : 0 < b.width) (hbh : 0 < b.height) (hcw : 0 < c.width) (hch : 0 < c.height) :
    highlight_differences resample b c
      = .ok (highlightCore (normBase resample b c) (normCheck resample b c)) := by
  unfold highlight_differences
  rw [normalize_ok resample b c hbw hbh hcw hch]
  show (if (normBase resample b c).width = 0 ∨ (normBase resample b c).height = 0 then
      Except.error AppError.emptyImage
    else Except.ok (highlightCore (normBase resample b c) (normCheck resample b c))) = _
  have hWd := resizeFn_size resample hres b (min b.width c.width) (min b.height c.height) .lanczos
  rw [if_neg (by unfold normBase; omega)]

theorem normalize_eval (resample : Resampler) (b c : Raster) :
    normalize resample b c =
      (if b.width = min b.width c.width ∧ b.height = min b.height c.height then
        (if c.width = min b.width c.width ∧ c.height = min b.height c.height then
          .ok (b, c)
         else if min b.width c.width = 0 ∨ min b.height c.height = 0 then
          .error .invalidInput
         else .ok (b, resample c (min b.width c.width) (min b.height c.height) .lanczos))
       else if min b.width c.width = 0 ∨ min b.height c.height = 0 then
        .error .invalidInput
       else if c.width = min b.width c.width ∧ c.height = min b.height c.height then
        .ok (resample b (min b.width c.width) (min b.height c.height) .lanczos, c)
       else
        .ok (resample b (min b.width c.width) (min b.height c.height) .lanczos,
          resample c (min b.width c.width) (min b.height c.height) .lanczos)) := by
  simp only [normalize, pilResize]
  split_ifs <;> rfl

/-! ### Claim theorems -/

/-- C1, counterexample: on a 2×1 image whose difference mask is true at
both pixels, the mask-true pixel `(x = 0, y = 0)` ends the overlay pass
carrying the lower-opacity secondary ink (alpha 60), not the primary
alpha-120 mark: the neighbor write of the later-scanned pixel `(1, 0)`
overwrote it. -/
theorem claim_C1_counterexample :
    fullMask 0 0 = true ∧ (0 : Nat) < 2 ∧ (0 : Nat) < 1 ∧
    drawOverlay fullMask 2 1 0 0 = secondaryColor ∧
    drawOverlay fullMask 2 1 0 0 ≠ primaryColor := by
  decide

/-- C1, amended: a mask-true pixel is indeed painted with the primary
highlight (orange, alpha 120) when visited, but `ImageDraw.point` writes
overwrite previous values, so after the whole overlay pass a mask-true
pixel still carries the primary mark if and only if neither its right
neighbor `(x+1, y)` nor its down neighbor `(x, y+1)` is an in-bounds
mask-true pixel; otherwise the last write was a neighbor write and the
pixel carries the secondary (alpha 60) value. -/
theorem claim_C1_amended (mask : Nat → Nat → Bool) (w h x y : Nat)
    (hx : x < w) (hy : y < h) (hm : mask y x = true) :
    drawOverlay mask w h x y =
      (if (x + 1 < w ∧ mask y (x + 1) = true) ∨ (y + 1 < h ∧ mask (y + 1) x = true)
        then secondaryColor else primaryColor) := by
  by_cases hdown : y + 1 < h ∧ mask (y + 1) x = true
  · rw [if_pos (Or.inr hdown)]
    have hscan : ((y + 1, x) : Nat × Nat) ∈ scanList h w :=
      (mem_scanList h w (y + 1, x)).mpr ⟨hdown.1, hx⟩
    have hmemnb : (x, y) ∈ nbInb w h x (y + 1) := by
      rw [mem_nbInb]
      omega
    have hres2 := drawOverlay_last mask w h x y (y + 1, x) hscan
      ⟨hdown.2, Or.inl hmemnb⟩ ?hl
    · rw [hres2]
      unfold writeVal
      rw [if_pos hmemnb]
    case hl =>
      intro r h1 h2 hlex hW2
      obtain ⟨hmr, hpos⟩ := hW2
      unfold lexLt at hlex
      rcases hpos with hnb | hcen
      · rw [mem_nbInb] at hnb
        omega
      · omega
  · by_cases hright : x + 1 < w ∧ mask y (x + 1) = true
    · rw [if_pos (Or.inl hright)]
      have hscan : ((y, x + 1) : Nat × Nat) ∈ scanList h w :=
        (mem_scanList h w (y, x + 1)).mpr ⟨hy, hright.1⟩
      have hmemnb : (x, y) ∈ nbInb w h (x + 1) y := by
        rw [mem_nbInb]
        omega
      have hres2 := drawOverlay_last mask w h x y (y, x + 1) hscan
        ⟨hright.2, Or.inl hmemnb⟩ ?hl2
      · rw [hres2]
        unfold writeVal
        rw [if_pos hmemnb]
      case hl2 =>
        intro r h1 h2 hlex hW2
        obtain ⟨hmr, hpos⟩ := hW2
        unfold lexLt at hlex
        rcases hpos with hnb | hcen
        · rw [mem_nbInb] at hnb
          rcases hnb.2.2 with ⟨hyy, hxx⟩ | ⟨hxx, hyy⟩
          · omega
          · rcases hyy with hyy | hyy
            · refine hdown ⟨by omega, ?_⟩
              rw [hyy, hxx]
              exact hmr
            · omega
        · omega
    · rw [if_neg (not_or.mpr ⟨hright, hdown⟩)]
      have hscan : ((y, x) : Nat × Nat) ∈ scanList h w := (mem_scanList h w (y, x)).mpr ⟨hy, hx⟩
      have hres2 := drawOverlay_last mask w h x y (y, x) hscan
        ⟨hm, Or.inr ⟨rfl, rfl⟩⟩ ?hl3
      · rw [hres2]
        unfold writeVal
        rw [if_neg (center_not_mem_nbInb w h x y)]
      case hl3 =>
        intro r h1 h2 hlex hW2
        obtain ⟨hmr, hpos⟩ := hW2
        unfold lexLt at hlex
        rcases hpos with hnb | hcen
        · rw [mem_nbInb] at hnb
          rcases hnb.2.2 with ⟨hyy, hxx | hxx⟩ | ⟨hxx, hyy | hyy⟩
          · refine hright ⟨by omega, ?_⟩
            rw [hxx, hyy]
            exact hmr
          · omega
          · refine hdown ⟨by omega, ?_⟩
            rw [hyy, hxx]
            exact hmr
          · omega
        · omega

/-- C1, amended, witness: in a 2×1 all-true mask the pixel `(1, 0)` has
no in-bounds right or down mask-true neighbor and keeps the primary mark. -/
theorem claim_C1_amended_witness :
    (1 : Nat) < 2 ∧ (0 : Nat) < 1 ∧ fullMask 0 1 = true ∧
    drawOverlay fullMask 2 1 1 0 =
      (if (1 + 1 < 2 ∧ fullMask 0 (1 + 1) = true) ∨ (0 + 1 < 1 ∧ fullMask (0 + 1) 1 = true)
        then secondaryColor else primaryColor) :=
  ⟨by decide, by decide, by decide,
    claim_C1_amended fullMask 2 1 1 0 (by decide) (by decide) (by decide)⟩

/-- C2: the difference mask uses the fixed threshold 30 with a strict
comparison: a pixel pair whose grayscale absolute difference is exactly 30
is not marked, and one whose difference is 31 or more is marked. -/
theorem claim_C2 (b c : Raster) (y x : Nat) :
    (absdiff (rgb2gray (b.pix x y)) (rgb2gray (c.pix x y)) = 30 → diffMask b c y x = false) ∧
    (31 ≤ absdiff (rgb2gray (b.pix x y)) (rgb2gray (c.pix x y)) → diffMask b c y x = true) := by
  constructor
  · intro h30
    cases hB : diffMask b c y x
    · rfl
    · exfalso
      have := (diffMask_iff b c y x).mp hB
      omega
  · intro h31
    exact (diffMask_iff b c y x).mpr (by omega)

/-- C2, witness: grayscale values 0 versus 30 (difference exactly 30) are
not marked; 0 versus 31 are marked. -/
theorem claim_C2_witness :
    diffMask (solidRaster 1 1 ⟨0, 0, 0⟩) (solidRaster 1 1 ⟨30, 30, 30⟩) 0 0 = false ∧
    diffMask (solidRaster 1 1 ⟨0, 0, 0⟩) (solidRaster 1 1 ⟨31, 31, 31⟩) 0 0 = true :=
  ⟨(claim_C2 (solidRaster 1 1 ⟨0, 0, 0⟩) (solidRaster 1 1 ⟨30, 30, 30⟩) 0 0).1 (by decide),
    (claim_C2 (solidRaster 1 1 ⟨0, 0, 0⟩) (solidRaster 1 1 ⟨31, 31, 31⟩) 0 0).2 (by decide)⟩

/-- C3: for positive-area inputs, `normalize` succeeds (with the Lanczos
kernel) and both outputs have width `min` of the input widths and height
`min` of the input heights — in particular the two outputs always share
dimensions, and equal-sized inputs keep their dimensions (`min w w = w`). -/
theorem claim_C3 (resample : Resampler)
    (hres : ∀ img w2 h2 flt, (resample img w2 h2 flt).width = w2 ∧
      (resample img w2 h2 flt).height = h2)
    (b c : Raster) (hbw : 0 < b.width) (hbh : 0 < b.height)
    (hcw : 0 < c.width) (hch : 0 < c.height) :
    normalize resample b c = .ok (normBase resample b c, normCheck resample b c) ∧
    (normBase resample b c).width = min b.width c.width ∧
    (normBase resample b c).height = min b.height c.height ∧
    (normCheck resample b c).width = min b.width c.width ∧
    (normCheck resample b c).height = min b.height c.height := by
  refine ⟨normalize_ok resample b c hbw hbh hcw hch, ?_, ?_, ?_, ?_⟩
  · exact (resizeFn_size resample hres b (min b.width c.width) (min b.height c.height) .lanczos).1
  · exact (resizeFn_size resample hres b (min b.width c.width) (min b.height c.height) .lanczos).2
  · exact (resizeFn_size resample hres c (min b.width c.width) (min b.height c.height) .lanczos).1
  · exact (resizeFn_size resample hres c (min b.width c.width) (min b.height c.height) .lanczos).2

/-- C3, witness: a 200×300 base and a 210×290 candidate normalize to two
200×290 rasters. -/
theorem claim_C3_witness :
    normalize sampleKernel (solidRaster 200 300 whiteRGB) (solidRaster 210 290 whiteRGB)
      = .ok (normBase sampleKernel (solidRaster 200 300 whiteRGB) (solidRaster 210 290 whiteRGB),
        normCheck sampleKernel (solidRaster 200 300 whiteRGB) (solidRaster 210 290 whiteRGB)) ∧
    (normBase sampleKernel (solidRaster 200 300 whiteRGB) (solidRaster 210 290 whiteRGB)).width
      = 200 ∧
    (normBase sampleKernel (solidRaster 200 300 whiteRGB) (solidRaster 210 290 whiteRGB)).height
      = 290 ∧
    (normCheck sampleKernel (solidRaster 200 300 whiteRGB) (solidRaster 210 290 whiteRGB)).width
      = 200 ∧
    (normCheck sampleKernel (solidRaster 200 300 whiteRGB) (solidRaster 210 290 whiteRGB)).height
      = 290 := by
  have h := claim_C3 sampleKernel (fun img w2 h2 flt => ⟨rfl, rfl⟩)
    (solidRaster 200 300 whiteRGB) (solidRaster 210 290 whiteRGB)
    (by decide) (by decide) (by decide) (by decide)
  refine ⟨h.1, ?_, ?_, ?_, ?_⟩
  · rw [h.2.1]; decide
  · rw [h.2.2.1]; decide
  · rw [h.2.2.2.1]; decide
  · rw [h.2.2.2.2]; decide

/-- C6, counterexample: two 0×0 inputs have zero width and height, yet
`normalize` succeeds (PIL's resize returns an equal-size image unchanged
before any size validation), contradicting the claim that a zero-area
input always makes normalization fail with `InvalidInputError`. -/
theorem claim_C6_counterexample :
    (solidRaster 0 0 whiteRGB).width = 0 ∧ (solidRaster 0 0 whiteRGB).height = 0 ∧
    normalize sampleKernel (solidRaster 0 0 whiteRGB) (solidRaster 0 0 whiteRGB)
      = .ok (solidRaster 0 0 whiteRGB, solidRaster 0 0 whiteRGB) ∧
    ∀ e, normalize sampleKernel (solidRaster 0 0 whiteRGB) (solidRaster 0 0 whiteRGB)
      ≠ .error e := by
  refine ⟨rfl, rfl, rfl, ?_⟩
  intro e h
  exact Except.noConfusion h

/-- C6, amended: normalization fails (with `InvalidInputError`, its only
error) if and only if one of the target dimensions `min` of widths /
`min` of heights is zero AND at least one input's size differs from the
target — an input that already has the (zero-area) target size is
returned unchanged by PIL resize before validation; for positive-area
inputs no error is ever raised. -/
theorem claim_C6_amended (resample : Resampler) (b c : Raster) :
    ((∃ e, normalize resample b c = .error e) ↔
      ((min b.width c.width = 0 ∨ min b.height c.height = 0) ∧
        (¬(b.width = min b.width c.width ∧ b.height = min b.height c.height) ∨
          ¬(c.width = min b.width c.width ∧ c.height = min b.height c.height)))) ∧
    (∀ e, normalize resample b c = .error e → e = .invalidInput) ∧
    (0 < b.width → 0 < b.height → 0 < c.width → 0 < c.height →
      normalize resample b c = .ok (normBase resample b c, normCheck resample b c)) := by
  refine ⟨?_, ?_, fun h1 h2 h3 h4 => normalize_ok resample b c h1 h2 h3 h4⟩
  · rw [normalize_eval]
    split_ifs with hb hc hz hz2 hc2
    · constructor
      · rintro ⟨e, he⟩
        exact he.elim
      · rintro ⟨_, hne | hne⟩
        · exact absurd hb hne
        · exact absurd hc hne
    · exact ⟨fun _ => ⟨hz, Or.inr hc⟩, fun _ => ⟨.invalidInput, rfl⟩⟩
    · constructor
      · rintro ⟨e, he⟩
        exact he.elim
      · rintro ⟨hzc, _⟩
        exact absurd hzc hz
    · exact ⟨fun _ => ⟨hz2, Or.inl hb⟩, fun _ => ⟨.invalidInput, rfl⟩⟩
    · constructor
      · rintro ⟨e, he⟩
        exact he.elim
      · rintro ⟨hzc, _⟩
        exact absurd hzc hz2
    · constructor
      · rintro ⟨e, he⟩
        exact he.elim
      · rintro ⟨hzc, _⟩
        exact absurd hzc hz2
  · intro e
    rw [normalize_eval]
    split_ifs <;> intro he
    · exact he.elim
    · injection he with h3
      exact h3.symm
    · exact he.elim
    · injection he with h3
      exact h3.symm
    · exact he.elim
    · exact he.elim

/-- C6, amended, witness: a 0×300 base against a 210×290 candidate makes
normalization fail, while 2×3 against 4×5 succeeds. -/
theorem claim_C6_amended_witness :
    (∃ e, normalize sampleKernel (solidRaster 0 300 whiteRGB) (solidRaster 210 290 whiteRGB)
      = .error e) ∧
    normalize sampleKernel (solidRaster 2 3 whiteRGB) (solidRaster 4 5 whiteRGB)
      = .ok (normBase sampleKernel (solidRaster 2 3 whiteRGB) (solidRaster 4 5 whiteRGB),
        normCheck sampleKernel (solidRaster 2 3 whiteRGB) (solidRaster 4 5 whiteRGB)) :=
  ⟨(claim_C6_amended sampleKernel (solidRaster 0 300 whiteRGB)
      (solidRaster 210 290 whiteRGB)).1.mpr (by decide),
    (claim_C6_amended sampleKernel (solidRaster 2 3 whiteRGB) (solidRaster 4 5 whiteRGB)).2.2
      (by decide) (by decide) (by decide) (by decide)⟩

/-- C4: running the diff highlighter on a pair of identical (positive
area) rasters yields an all-false difference mask, a fully transparent
overlay, and an output equal to the input alpha-composited onto the
opaque white background, pixel for pixel. -/
theorem claim_C4 (resample : Resampler) (A : Raster) (hw : 0 < A.width) (hh : 0 < A.height) :
    highlight_differences resample A A = .ok (highlightCore A A) ∧
    (∀ y x, diffMask A A y x = false) ∧
    (∀ X Y, drawOverlay (diffMask A A) A.width A.height X Y = transparentColor) ∧
    (highlightCore A A).width = A.width ∧ (highlightCore A A).height = A.height ∧
    (∀ x y, (highlightCore A A).pix x y
      = rgbOf (compositePixel whiteBG (toRGBA (A.pix x y)))) := by
  have hmask : ∀ y x, diffMask A A y x = false := by
    intro y x
    cases hB : diffMask A A y x
    · rfl
    · exfalso
      have h30 := (diffMask_iff A A y x).mp hB
      unfold absdiff at h30
      rw [if_pos (le_refl _)] at h30
      omega
  have hov : ∀ X Y, drawOverlay (diffMask A A) A.width A.height X Y = transparentColor := by
    intro X Y
    refine drawOverlay_no_writes _ _ _ _ _ ?_
    intro q _ _ hW
    have hfalse := hW.1
    rw [hmask q.1 q.2] at hfalse
    exact Bool.noConfusion hfalse
  have hfst : normalize resample A A = .ok (A, A) := by
    have h := normalize_ok resample A A hw hh hw hh
    rw [(normBase_self resample A).1, (normBase_self resample A).2] at h
    exact h
  have hmain : highlight_differences resample A A = .ok (highlightCore A A) := by
    unfold highlight_differences
    rw [hfst]
    show (if A.width = 0 ∨ A.height = 0 then Except.error AppError.emptyImage
      else Except.ok (highlightCore A A)) = _
    rw [if_neg (by omega)]
  refine ⟨hmain, hmask, hov, rfl, rfl, ?_⟩
  intro x y
  show rgbOf (compositePixel (compositePixel whiteBG (toRGBA (A.pix x y)))
    (drawOverlay (diffMask A A) A.width A.height x y)) = _
  rw [hov x y, compositePixel_transparent]

/-- C4, witness: a concrete 1×1 raster compared against itself. -/
theorem claim_C4_witness :
    0 < (solidRaster 1 1 ⟨5, 6, 7⟩).width ∧ 0 < (solidRaster 1 1 ⟨5, 6, 7⟩).height ∧
    highlight_differences sampleKernel (solidRaster 1 1 ⟨5, 6, 7⟩) (solidRaster 1 1 ⟨5, 6, 7⟩)
      = .ok (highlightCore (solidRaster 1 1 ⟨5, 6, 7⟩) (solidRaster 1 1 ⟨5, 6, 7⟩)) :=
  ⟨by decide, by decide,
    (claim_C4 sampleKernel (solidRaster 1 1 ⟨5, 6, 7⟩) (by decide) (by decide)).1⟩

/-- C8: the diff highlighter is a deterministic function — two runs on
equal inputs return equal results, and in particular pixel-for-pixel
equal output rasters. -/
theorem claim_C8 (resample : Resampler) (b1 c1 b2 c2 : Raster) (hb : b1 = b2) (hc : c1 = c2) :
    highlight_differences resample b1 c1 = highlight_differences resample b2 c2 ∧
    (∀ o1 o2, highlight_differences resample b1 c1 = .ok o1 →
      highlight_differences resample b2 c2 = .ok o2 →
      o1.width = o2.width ∧ o1.height = o2.height ∧ ∀ x y, o1.pix x y = o2.pix x y) := by
  subst hb
  subst hc
  refine ⟨rfl, ?_⟩
  intro o1 o2 h1 h2
  rw [h1] at h2
  injection h2 with h3
  rw [h3]
  exact ⟨rfl, rfl, fun x y => rfl⟩

/-- C8, witness: two identical runs on a concrete input pair. -/
theorem claim_C8_witness :
    solidRaster 1 1 ⟨1, 2, 3⟩ = solidRaster 1 1 ⟨1, 2, 3⟩ ∧
    highlight_differences sampleKernel (solidRaster 1 1 ⟨1, 2, 3⟩) (solidRaster 1 1 ⟨9, 9, 9⟩)
      = highlight_differences sampleKernel (solidRaster 1 1 ⟨1, 2, 3⟩)
        (solidRaster 1 1 ⟨9, 9, 9⟩) :=
  ⟨rfl, (claim_C8 sampleKernel (solidRaster 1 1 ⟨1, 2, 3⟩) (solidRaster 1 1 ⟨9, 9, 9⟩)
    (solidRaster 1 1 ⟨1, 2, 3⟩) (solidRaster 1 1 ⟨9, 9, 9⟩) rfl rfl).1⟩

/-- C7: when two equal-size rasters have exactly one pixel whose
grayscale difference exceeds the threshold (all others at most 30), the
difference mask is true at exactly that pixel, and the overlay pass
paints that pixel with the primary orange ink at alpha 120, its in-bounds
4-connected neighbors with the secondary ink at alpha 60, and no other
pixel. -/
theorem claim_C7 (b c : Raster) (px py : Nat)
    (hcw : c.width = b.width) (hch : c.height = b.height)
    (hpx : px < b.width) (hpy : py < b.height)
    (hdiff : 30 < absdiff (rgb2gray (b.pix px py)) (rgb2gray (c.pix px py)))
    (hothers : ∀ y, y < b.height → ∀ x, x < b.width → ¬(y = py ∧ x = px) →
      absdiff (rgb2gray (b.pix x y)) (rgb2gray (c.pix x y)) ≤ 30) :
    (∀ y, y < b.height → ∀ x, x < b.width →
      (diffMask b c y x = true ↔ (y = py ∧ x = px))) ∧
    drawOverlay (diffMask b c) b.width b.height px py = primaryColor ∧
    (∀ X Y, X < b.width → Y < b.height →
      ((Y = py ∧ (X + 1 = px ∨ X = px + 1)) ∨ (X = px ∧ (Y + 1 = py ∨ Y = py + 1))) →
      drawOverlay (diffMask b c) b.width b.height X Y = secondaryColor) ∧
    (∀ X Y, ¬(Y = py ∧ X = px) →
      ¬((Y = py ∧ (X + 1 = px ∨ X = px + 1)) ∨ (X = px ∧ (Y + 1 = py ∨ Y = py + 1))) →
      drawOverlay (diffMask b c) b.width b.height X Y = transparentColor) := by
  have hmaskp : diffMask b c py px = true := (diffMask_iff b c py px).mpr hdiff
  have hmaskiff : ∀ y, y < b.height → ∀ x, x < b.width →
      (diffMask b c y x = true ↔ (y = py ∧ x = px)) := by
    intro y hy x hx
    constructor
    · intro ht
      by_contra hne
      have hle := hothers y hy x hx hne
      have hgt := (diffMask_iff b c y x).mp ht
      omega
    · rintro ⟨rfl, rfl⟩
      exact hmaskp
  have huniq : ∀ y x, y < b.height → x < b.width → diffMask b c y x = true →
      y = py ∧ x = px :=
    fun y x hy hx ht => (hmaskiff y hy x hx).mp ht
  obtain ⟨hp, hnbr, hfar⟩ := drawOverlay_single (diffMask b c) b.width b.height px py
    hpx hpy hmaskp huniq
  refine ⟨hmaskiff, hp, ?_, ?_⟩
  · intro X Y hXw hYh hadj
    exact hnbr X Y ((mem_nbInb b.width b.height px py X Y).mpr ⟨hXw, hYh, hadj⟩)
  · intro X Y h1 h2
    refine hfar X Y h1 ?_
    intro hmem
    exact h2 ((mem_nbInb b.width b.height px py X Y).mp hmem).2.2

/-- C7, witness: 1×1 black versus 1×1 white differ by 255 at the only
pixel, which ends up painted with the primary ink. -/
theorem claim_C7_witness :
    30 < absdiff (rgb2gray ((solidRaster 1 1 ⟨0, 0, 0⟩).pix 0 0))
      (rgb2gray ((solidRaster 1 1 ⟨255, 255, 255⟩).pix 0 0)) ∧
    drawOverlay (diffMask (solidRaster 1 1 ⟨0, 0, 0⟩) (solidRaster 1 1 ⟨255, 255, 255⟩))
      1 1 0 0 = primaryColor := by
  refine ⟨by decide, ?_⟩
  exact (claim_C7 (solidRaster 1 1 ⟨0, 0, 0⟩) (solidRaster 1 1 ⟨255, 255, 255⟩) 0 0
    rfl rfl (by decide) (by decide) (by decide) (by decide)).2.1

/-- C9: for well-behaved resampling and positive-area inputs the pipeline
succeeds, and at every output pixel that is neither mask-true nor
4-adjacent to a mask-true pixel the result equals the resized base pixel
alpha-composited onto the opaque white background; moreover every output
pixel is the RGB part of a fully opaque composite. -/
theorem claim_C9 (resample : Resampler)
    (hres : ∀ img w2 h2 flt, (resample img w2 h2 flt).width = w2 ∧
      (resample img w2 h2 flt).height = h2)
    (b c : Raster) (hbw : 0 < b.width) (hbh : 0 < b.height)
    (hcw : 0 < c.width) (hch : 0 < c.height) :
    highlight_differences resample b c
      = .ok (highlightCore (normBase resample b c) (normCheck resample b c)) ∧
    (∀ X Y,
      (∀ qy, qy < (normBase resample b c).height → ∀ qx, qx < (normBase resample b c).width →
        diffMask (normBase resample b c) (normCheck resample b c) qy qx = true →
        ¬ adjOrEq qy qx Y X) →
      (highlightCore (normBase resample b c) (normCheck resample b c)).pix X Y
        = rgbOf (compositePixel whiteBG (toRGBA ((normBase resample b c).pix X Y)))) ∧
    (∀ X Y, ∃ p : RGBA, p.a = 255 ∧
      (highlightCore (normBase resample b c) (normCheck resample b c)).pix X Y = rgbOf p) := by
  refine ⟨highlight_ok resample hres b c hbw hbh hcw hch, ?_, ?_⟩
  · intro X Y hfarmask
    have hov : drawOverlay (diffMask (normBase resample b c) (normCheck resample b c))
        (normBase resample b c).width (normBase resample b c).height X Y
        = transparentColor := by
      refine drawOverlay_no_writes _ _ _ _ _ ?_
      intro q h1 h2 hW
      refine hfarmask q.1 h1 q.2 h2 hW.1 ?_
      rcases hW.2 with hmem | hcen
      · have hm := (mem_nbInb _ _ q.2 q.1 X Y).mp hmem
        unfold adjOrEq
        omega
      · unfold adjOrEq
        omega
    show rgbOf (compositePixel
        (compositePixel whiteBG (toRGBA ((normBase resample b c).pix X Y)))
        (drawOverlay (diffMask (normBase resample b c) (normCheck resample b c))
          (normBase resample b c).width (normBase resample b c).height X Y)) = _
    rw [hov, compositePixel_transparent]
  · intro X Y
    refine ⟨compositePixel
      (compositePixel whiteBG (toRGBA ((normBase resample b c).pix X Y)))
      (drawOverlay (diffMask (normBase resample b c) (normCheck resample b c))
        (normBase resample b c).width (normBase resample b c).height X Y), ?_, rfl⟩
    refine compositePixel_alpha255 _ _
      (compositePixel_alpha255 whiteBG _ rfl (Or.inr (Or.inr (Or.inr rfl)))) ?_
    rcases drawOverlay_range (diffMask (normBase resample b c) (normCheck resample b c))
        (normBase resample b c).width (normBase resample b c).height X Y with hov | hov | hov <;>
      rw [hov]
    · exact Or.inl rfl
    · exact Or.inr (Or.inr (Or.inl rfl))
    · exact Or.inr (Or.inl rfl)

/-- C9, witness: a concrete 1×1 pair; the pipeline succeeds and the pixel
away from any mask-true pixel equals the base composited onto white. -/
theorem claim_C9_witness :
    highlight_differences sampleKernel (solidRaster 1 1 ⟨8, 8, 8⟩) (solidRaster 1 1 ⟨9, 9, 9⟩)
      = .ok (highlightCore
        (normBase sampleKernel (solidRaster 1 1 ⟨8, 8, 8⟩) (solidRaster 1 1 ⟨9, 9, 9⟩))
        (normCheck sampleKernel (solidRaster 1 1 ⟨8, 8, 8⟩) (solidRaster 1 1 ⟨9, 9, 9⟩))) ∧
    (highlightCore
        (normBase sampleKernel (solidRaster 1 1 ⟨8, 8, 8⟩) (solidRaster 1 1 ⟨9, 9, 9⟩))
        (normCheck sampleKernel (solidRaster 1 1 ⟨8, 8, 8⟩) (solidRaster 1 1 ⟨9, 9, 9⟩))).pix 0 0
      = rgbOf (compositePixel whiteBG (toRGBA
        ((normBase sampleKernel (solidRaster 1 1 ⟨8, 8, 8⟩)
          (solidRaster 1 1 ⟨9, 9, 9⟩)).pix 0 0))) := by
  have h := claim_C9 sampleKernel (fun img w2 h2 flt => ⟨rfl, rfl⟩)
    (solidRaster 1 1 ⟨8, 8, 8⟩) (solidRaster 1 1 ⟨9, 9, 9⟩)
    (by decide) (by decide) (by decide) (by decide)
  exact ⟨h.1, h.2.1 0 0 (by decide)⟩

theorem mapM_ok_of_forall {α β : Type} (f : α → Except AppError β) :
    ∀ (l : List α), (∀ a ∈ l, ∃ r, f a = .ok r) →
    ∃ res, l.mapM f = .ok res ∧ res.length = l.length ∧
      ∀ i d d2, i < l.length → Except.ok (res.getD i d2) = f (l.getD i d) := by
  intro l
  induction l with
  | nil =>
    intro _
    refine ⟨[], rfl, rfl, ?_⟩
    intro i d d2 hi
    exact absurd hi (by simp)
  | cons a l ih =>
    intro hall
    obtain ⟨r, hr⟩ := hall a (List.mem_cons_self a l)
    obtain ⟨res, hres2, hlen, hget⟩ := ih (fun x hx => hall x (List.mem_cons_of_mem a hx))
    refine ⟨r :: res, ?_, by simp [hlen], ?_⟩
    · rw [List.mapM_cons, hr, hres2]
      rfl
    · intro i d d2 hi
      cases i with
      | zero =>
        rw [List.getD_cons_zero, List.getD_cons_zero]
        exact hr.symm
      | succ n =>
        rw [List.getD_cons_succ, List.getD_cons_succ]
        exact hget n d d2 (by simpa using hi)

/-- C5: with positive-area pages and a well-behaved resampling kernel,
`process_pdfs` compares exactly `min` of the two page counts page pairs,
pairing pages by index in order, and returns exactly that many results;
trailing unmatched pages of the longer document are ignored. -/
theorem claim_C5 (resample : Resampler)
    (hres : ∀ img w2 h2 flt, (resample img w2 h2 flt).width = w2 ∧
      (resample img w2 h2 flt).height = h2)
    (base_images check_images : List Raster)
    (hpos1 : ∀ r ∈ base_images, 0 < r.width ∧ 0 < r.height)
    (hpos2 : ∀ r ∈ check_images, 0 < r.width ∧ 0 < r.height) :
    ∃ results, process_pdfs resample base_images check_images = .ok results ∧
      results.length = min base_images.length check_images.length ∧
      ∀ i, i < min base_images.length check_images.length →
        Except.ok (results.getD i default)
          = highlight_differences resample (base_images.getD i default)
              (check_images.getD i default) := by
  have hall : ∀ i ∈ List.range (min base_images.length check_images.length),
      ∃ r, highlight_differences resample (base_images.getD i default)
        (check_images.getD i default) = .ok r := by
    intro i hi
    rw [List.mem_range] at hi
    have hib : i < base_images.length := by omega
    have hic : i < check_images.length := by omega
    have hbi : base_images.getD i default ∈ base_images := by
      rw [List.getD_eq_getElem base_images default hib]
      exact List.getElem_mem hib
    have hci : check_images.getD i default ∈ check_images := by
      rw [List.getD_eq_getElem check_images default hic]
      exact List.getElem_mem hic
    obtain ⟨h1, h2⟩ := hpos1 _ hbi
    obtain ⟨h3, h4⟩ := hpos2 _ hci
    exact ⟨_, highlight_ok resample hres _ _ h1 h2 h3 h4⟩
  obtain ⟨res, hmap, hlen, hget⟩ := mapM_ok_of_forall
    (fun i => highlight_differences resample (base_images.getD i default)
      (check_images.getD i default))
    (List.range (min base_images.length check_images.length)) hall
  refine ⟨res, hmap, by simpa using hlen, ?_⟩
  intro i hi
  have hg := hget i default default (by simpa using hi)
  have hrange : (List.range (min base_images.length check_images.length)).getD i default = i := by
    rw [List.getD_eq_getElem _ default (by simpa using hi)]
    simp
  rw [hrange] at hg
  exact hg

/-- C5, witness: three 1×1 base pages versus five 1×1 check pages yield
exactly three results. -/
theorem claim_C5_witness :
    ∃ results, process_pdfs sampleKernel
        [solidRaster 1 1 ⟨0, 0, 0⟩, solidRaster 1 1 ⟨1, 1, 1⟩, solidRaster 1 1 ⟨2, 2, 2⟩]
        [solidRaster 1 1 ⟨0, 0, 0⟩, solidRaster 1 1 ⟨1, 1, 1⟩, solidRaster 1 1 ⟨2, 2, 2⟩,
          solidRaster 1 1 ⟨3, 3, 3⟩, solidRaster 1 1 ⟨4, 4, 4⟩] = .ok results ∧
      results.length = min 3 5 ∧
      ∀ i, i < min 3 5 →
        Except.ok (results.getD i default)
          = highlight_differences sampleKernel
            ([solidRaster 1 1 ⟨0, 0, 0⟩, solidRaster 1 1 ⟨1, 1, 1⟩,
              solidRaster 1 1 ⟨2, 2, 2⟩].getD i default)
            ([solidRaster 1 1 ⟨0, 0, 0⟩, solidRaster 1 1 ⟨1, 1, 1⟩, solidRaster 1 1 ⟨2, 2, 2⟩,
              solidRaster 1 1 ⟨3, 3, 3⟩, solidRaster 1 1 ⟨4, 4, 4⟩].getD i default) :=
  claim_C5 sampleKernel (fun img w2 h2 flt => ⟨rfl, rfl⟩)
    [solidRaster 1 1 ⟨0, 0, 0⟩, solidRaster 1 1 ⟨1, 1, 1⟩, solidRaster 1 1 ⟨2, 2, 2⟩]
    [solidRaster 1 1 ⟨0, 0, 0⟩, solidRaster 1 1 ⟨1, 1, 1⟩, solidRaster 1 1 ⟨2, 2, 2⟩,
      solidRaster 1 1 ⟨3, 3, 3⟩, solidRaster 1 1 ⟨4, 4, 4⟩]
    (by decide) (by decide)

/-! ### combine_images machinery -/

theorem totalHeight_nil : totalHeight [] = 0 := rfl

theorem foldl_height_shift : ∀ (l : List Raster) (s : Nat),
    l.foldl (fun s i => s + i.height) s = s + totalHeight l := by
  intro l
  induction l with
  | nil =>
    intro s
    unfold totalHeight
    simp
  | cons a l ih =>
    intro s
    have h1 : totalHeight (a :: l) = List.foldl (fun s i => s + i.height) (0 + a.height) l := rfl
    rw [List.foldl_cons, ih, h1, ih (0 + a.height)]
    omega

theorem totalHeight_cons (a : Raster) (l : List Raster) :
    totalHeight (a :: l) = a.height + totalHeight l := by
  have h1 : totalHeight (a :: l) = List.foldl (fun s i => s + i.height) (0 + a.height) l := rfl
  rw [h1, foldl_height_shift]
  omega

theorem combineLoop_dims (maxW : Nat) : ∀ (l : List Raster) (acc : Raster) (yOff : Nat),
    (combineLoop maxW l acc yOff).width = acc.width ∧
    (combineLoop maxW l acc yOff).height = acc.height := by
  intro l
  induction l with
  | nil =>
    intro acc yOff
    exact ⟨rfl, rfl⟩
  | cons img rest ih =>
    intro acc yOff
    exact ih (pasteAt acc img ((maxW - img.width) / 2) yOff) (yOff + img.height)

theorem findCover_cons_eq (maxW : Nat) (img : Raster) (rest : List Raster) (yOff X Y : Nat) :
    findCover maxW (img :: rest) yOff X Y =
      (match findCover maxW rest (yOff + img.height) X Y with
       | some r => some r
       | none =>
         if (maxW - img.width) / 2 ≤ X ∧ X < (maxW - img.width) / 2 + img.width ∧
             yOff ≤ Y ∧ Y < yOff + img.height then
           some (img, (maxW - img.width) / 2, yOff)
         else none) := rfl

theorem combineLoop_pix (maxW : Nat) : ∀ (l : List Raster) (acc : Raster) (yOff X Y : Nat),
    (combineLoop maxW l acc yOff).pix X Y =
      (match findCover maxW l yOff X Y with
       | some (img, ox, oy) => img.pix (X - ox) (Y - oy)
       | none => acc.pix X Y) := by
  intro l
  induction l with
  | nil =>
    intro acc yOff X Y
    rfl
  | cons img rest ih =>
    intro acc yOff X Y
    rw [findCover_cons_eq]
    show (combineLoop maxW rest (pasteAt acc img ((maxW - img.width) / 2) yOff)
      (yOff + img.height)).pix X Y = _
    rw [ih]
    cases hfc : findCover maxW rest (yOff + img.height) X Y with
    | some r =>
      rcases r with ⟨ri, rox, roy⟩
      rfl
    | none =>
      by_cases hg : (maxW - img.width) / 2 ≤ X ∧ X < (maxW - img.width) / 2 + img.width ∧
          yOff ≤ Y ∧ Y < yOff + img.height
      · rw [if_pos hg]
        show (if (maxW - img.width) / 2 ≤ X ∧ X < (maxW - img.width) / 2 + img.width ∧
            yOff ≤ Y ∧ Y < yOff + img.height then
          img.pix (X - (maxW - img.width) / 2) (Y - yOff) else acc.pix X Y) = _
        rw [if_pos hg]
      · rw [if_neg hg]
        show (if (maxW - img.width) / 2 ≤ X ∧ X < (maxW - img.width) / 2 + img.width ∧
            yOff ≤ Y ∧ Y < yOff + img.height then
          img.pix (X - (maxW - img.width) / 2) (Y - yOff) else acc.pix X Y) = acc.pix X Y
        rw [if_neg hg]

theorem findCover_none_of_low (maxW : Nat) : ∀ (l : List Raster) (yOff X Y : Nat),
    Y < yOff → findCover maxW l yOff X Y = none := by
  intro l
  induction l with
  | nil =>
    intro yOff X Y _
    rfl
  | cons img rest ih =>
    intro yOff X Y hY
    rw [findCover_cons_eq, ih (yOff + img.height) X Y (by omega), if_neg (by omega)]

theorem findCover_at_region (maxW : Nat) : ∀ (l : List Raster) (yOff i : Nat), i < l.length →
    ∀ dx dy, dx < (l.getD i default).width → dy < (l.getD i default).height →
    findCover maxW l yOff ((maxW - (l.getD i default).width) / 2 + dx)
        (yOff + totalHeight (l.take i) + dy)
      = some (l.getD i default, (maxW - (l.getD i default).width) / 2,
          yOff + totalHeight (l.take i)) := by
  intro l
  induction l with
  | nil =>
    intro yOff i hi
    exact absurd hi (by simp)
  | cons img rest ih =>
    intro yOff i hi dx dy hdx hdy
    cases i with
    | zero =>
      simp only [List.getD_cons_zero] at hdx hdy ⊢
      simp only [List.take_zero, totalHeight_nil, Nat.add_zero]
      rw [findCover_cons_eq, findCover_none_of_low maxW rest (yOff + img.height) _ _ (by omega),
        if_pos (by omega)]
    | succ n =>
      simp only [List.getD_cons_succ] at hdx hdy ⊢
      simp only [List.take_succ_cons, totalHeight_cons]
      rw [findCover_cons_eq]
      have harith : yOff + (img.height + totalHeight (rest.take n)) + dy
          = yOff + img.height + totalHeight (rest.take n) + dy := by omega
      have harith2 : yOff + (img.height + totalHeight (rest.take n))
          = yOff + img.height + totalHeight (rest.take n) := by omega
      rw [harith, harith2, ih (yOff + img.height) n (by simpa using hi) dx dy hdx hdy]

theorem findCover_none_of_uncovered (maxW : Nat) : ∀ (l : List Raster) (yOff X Y : Nat),
    (∀ i, i < l.length → ¬ coverRegion maxW l yOff i X Y) →
    findCover maxW l yOff X Y = none := by
  intro l
  induction l with
  | nil =>
    intro yOff X Y _
    rfl
  | cons img rest ih =>
    intro yOff X Y hno
    have hrest : ∀ i, i < rest.length → ¬ coverRegion maxW rest (yOff + img.height) i X Y := by
      intro i hi hcov
      refine hno (i + 1) (by simpa using hi) ?_
      unfold coverRegion at hcov ⊢
      obtain ⟨c1, c2, c3, c4⟩ := hcov
      simp only [List.getD_cons_succ, List.take_succ_cons, totalHeight_cons]
      omega
    have hg : ¬((maxW - img.width) / 2 ≤ X ∧ X < (maxW - img.width) / 2 + img.width ∧
        yOff ≤ Y ∧ Y < yOff + img.height) := by
      intro hg
      refine hno 0 (by simp) ?_
      unfold coverRegion
      obtain ⟨c1, c2, c3, c4⟩ := hg
      simp only [List.getD_cons_zero, List.take_zero, totalHeight_nil]
      omega
    rw [findCover_cons_eq, ih (yOff + img.height) X Y hrest, if_neg hg]

/-- C10: `combine_images` on a non-empty list returns an RGB image of
width the maximum input width and height the sum of input heights, with
the `i`-th input pasted at vertical offset equal to the sum of the
previous heights and horizontally centered at `(maxWidth - width) / 2`,
over a white background everywhere no image is pasted. -/
theorem claim_C10 (images : List Raster) (hne : images ≠ []) :
    (combine_images images).width = maxWidth images ∧
    (combine_images images).height = totalHeight images ∧
    (∀ i, i < images.length → ∀ dx dy, dx < (images.getD i default).width →
      dy < (images.getD i default).height →
      (combine_images images).pix
          ((maxWidth images - (images.getD i default).width) / 2 + dx)
          (yOffsetAt images i + dy)
        = (images.getD i default).pix dx dy) ∧
    (∀ X Y, (∀ i, i < images.length → ¬ coverRegion (maxWidth images) images 0 i X Y) →
      (combine_images images).pix X Y = whiteRGB) := by
  refine ⟨(combineLoop_dims (maxWidth images) images _ 0).1,
    (combineLoop_dims (maxWidth images) images _ 0).2, ?_, ?_⟩
  · intro i hi dx dy hdx hdy
    unfold combine_images yOffsetAt
    rw [combineLoop_pix]
    have harith : totalHeight (images.take i) + dy = 0 + totalHeight (images.take i) + dy := by
      omega
    rw [harith, findCover_at_region (maxWidth images) images 0 i hi dx dy hdx hdy]
    show (images.getD i default).pix
        ((maxWidth images - (images.getD i default).width) / 2 + dx
          - (maxWidth images - (images.getD i default).width) / 2)
        (0 + totalHeight (images.take i) + dy - (0 + totalHeight (images.take i)))
      = (images.getD i default).pix dx dy
    rw [Nat.add_sub_cancel_left, Nat.add_sub_cancel_left]
  · intro X Y hno
    unfold combine_images
    rw [combineLoop_pix, findCover_none_of_uncovered (maxWidth images) images 0 X Y hno]

/-- C10, witness: a 2×1 image stacked above a 4×2 image gives a 4×3
result; the first image sits centered at offset 1, the second at row 1. -/
theorem claim_C10_witness :
    ([solidRaster 2 1 ⟨1, 1, 1⟩, solidRaster 4 2 ⟨2, 2, 2⟩] : List Raster) ≠ [] ∧
    (combine_images [solidRaster 2 1 ⟨1, 1, 1⟩, solidRaster 4 2 ⟨2, 2, 2⟩]).width
      = maxWidth [solidRaster 2 1 ⟨1, 1, 1⟩, solidRaster 4 2 ⟨2, 2, 2⟩] ∧
    (combine_images [solidRaster 2 1 ⟨1, 1, 1⟩, solidRaster 4 2 ⟨2, 2, 2⟩]).height
      = totalHeight [solidRaster 2 1 ⟨1, 1, 1⟩, solidRaster 4 2 ⟨2, 2, 2⟩] :=
  ⟨by simp,
    (claim_C10 [solidRaster 2 1 ⟨1, 1, 1⟩, solidRaster 4 2 ⟨2, 2, 2⟩] (by simp)).1,
    (claim_C10 [solidRaster 2 1 ⟨1, 1, 1⟩, solidRaster 4 2 ⟨2, 2, 2⟩] (by simp)).2.1⟩

end PdfDiff
